import Mathlib

/-!
Shallow embedding of the form-workflow state machine defined in
`src/App.js` (`formMachine`, built with xstate's `Machine`).

The machine has hierarchical states `editing` (substates `pristine`,
`error`), `submitting` and `success`, a context `{values, errors}` of
string-keyed maps, and three context actions (`onChange`, `clearForm`,
`onError`).  The `submitting` state invokes the injected submission
service; its settlement is delivered back as an internal event
(`done.invoke` carrying the resolved payload, or `error.platform`
carrying the rejection payload).  We embed the xstate transition
semantics of exactly this configuration as a pure `step` function.
-/

/-- Association map from field keys to strings, standing for the plain
JS objects the machine uses for `values` and `errors`. -/
abbrev StrMap : Type := List (String × String)

/-- Key lookup, mirroring JS property access `m[k]` (first binding wins,
as JS objects have unique keys). -/
def StrMap.get : StrMap → String → Option String
  | [], _ => none
  | (k0, v0) :: rest, k => if k0 = k then some v0 else StrMap.get rest k

/-- Object spread with override, mirroring `{...m, [k]: v}`: an existing
binding of `k` is overwritten in place, otherwise `(k, v)` is appended. -/
def StrMap.set : StrMap → String → String → StrMap
  | [], k, v => [(k, v)]
  | (k0, v0) :: rest, k, v =>
      if k0 = k then (k, v) :: rest else (k0, v0) :: StrMap.set rest k v

/-- The machine context from the source config: `{ values: {}, errors: {} }`. -/
structure Context where
  values : StrMap
  errors : StrMap
  deriving DecidableEq, Repr

/-- Substates of the composite `editing` state. -/
inductive EditingSub
  | pristine
  | error
  deriving DecidableEq, Repr

/-- The machine's hierarchical state tags. -/
inductive FState
  | editing (sub : EditingSub)
  | submitting
  | success
  deriving DecidableEq, Repr

/-- A machine configuration: current state tag plus context. -/
structure MState where
  state : FState
  context : Context
  deriving DecidableEq, Repr

/-- Events the machine can receive: the three external events of the
source (`CHANGE`, `SUBMIT`, `AGAIN`), the two internal settlement events
of the invoked submission service (resolution with a payload, rejection
with an error payload), and an arbitrary unrecognized event type. -/
inductive Event
  | change (key value : String)
  | submit
  | again
  | doneInvoke (data : StrMap)
  | errorPlatform (data : StrMap)
  | unknown (ty : String)
  deriving DecidableEq, Repr

/-- The `onChange` action from the source:
`assign({values: (ctx, e) => ({...ctx.values, [e.key]: e.value})})`. -/
def onChange (ctx : Context) (key value : String) : Context :=
  { ctx with values := ctx.values.set key value }

/-- The `clearForm` action from the source:
`assign({values: {}, errors: {}})`. -/
def clearForm (_ctx : Context) : Context :=
  { values := [], errors := [] }

/-- The `onError` action from the source:
`assign({errors: (_ctx, e) => e.data})` — a full replacement. -/
def onError (ctx : Context) (data : StrMap) : Context :=
  { ctx with errors := data }

/-- One transition of `formMachine`, following xstate semantics of the
source config: `editing` handles `CHANGE` (action `onChange`, no target,
hence an internal transition leaving the substate alone) and `SUBMIT`
(target `submitting`); `submitting` handles the invoked service's
resolution (target `success`, no action: the payload is dropped) and
rejection (target `editing.error`, action `onError`); `success` handles
`AGAIN` (target `editing`, whose initial substate `pristine` is entered,
firing its entry action `clearForm`).  Every other state/event pair has
no handler and leaves the configuration untouched. -/
def step : MState → Event → MState
  | ⟨FState.editing sub, ctx⟩, Event.change k v =>
      ⟨FState.editing sub, onChange ctx k v⟩
  | ⟨FState.editing _, ctx⟩, Event.submit =>
      ⟨FState.submitting, ctx⟩
  | ⟨FState.submitting, ctx⟩, Event.doneInvoke _ =>
      ⟨FState.success, ctx⟩
  | ⟨FState.submitting, ctx⟩, Event.errorPlatform d =>
      ⟨FState.editing EditingSub.error, onError ctx d⟩
  | ⟨FState.success, ctx⟩, Event.again =>
      ⟨FState.editing EditingSub.pristine, clearForm ctx⟩
  | s, _ => s

/-- Machine construction with an optional initial-context override (the
config's `context: {values: {}, errors: {}}` being the default).
Resolving the initial state enters `editing` and its initial substate
`pristine`, whose entry action `clearForm` (an xstate `assign`) is
applied to the context before the machine reports its first state. -/
def machineInit (init : Option Context) : MState :=
  ⟨FState.editing EditingSub.pristine, clearForm (init.getD ⟨[], []⟩)⟩

/-- Whether the source config gives the current state a handler for the
event's type: `editing` handles `CHANGE` and `SUBMIT`, `submitting`
handles the settlement events of its invoked service, `success` handles
`AGAIN`. -/
def recognizes : FState → Event → Bool
  | FState.editing _, Event.change _ _ => true
  | FState.editing _, Event.submit => true
  | FState.submitting, Event.doneInvoke _ => true
  | FState.submitting, Event.errorPlatform _ => true
  | FState.success, Event.again => true
  | _, _ => false

/-- Configurations reachable from the freshly constructed machine by any
sequence of dispatched events and service settlements. -/
inductive Reachable : MState → Prop
  | init : Reachable (machineInit none)
  | next (s : MState) (e : Event) : Reachable s → Reachable (step s e)

theorem StrMap.get_set_same (m : StrMap) (k v : String) :
    (m.set k v).get k = some v := by
  induction m with
  | nil => simp [StrMap.set, StrMap.get]
  | cons p rest ih =>
      obtain ⟨k0, v0⟩ := p
      by_cases h : k0 = k
      · simp [StrMap.set, StrMap.get, h]
      · simp [StrMap.set, StrMap.get, h, ih]

theorem StrMap.get_set_other (m : StrMap) (k v k1 : String) (h : k1 ≠ k) :
    (m.set k v).get k1 = m.get k1 := by
  induction m with
  | nil => simp [StrMap.set, StrMap.get, Ne.symm h]
  | cons p rest ih =>
      obtain ⟨k0, v0⟩ := p
      by_cases hk : k0 = k
      · subst hk
        simp [StrMap.set, StrMap.get, Ne.symm h]
      · simp [StrMap.set, StrMap.get, hk, ih]

/-- C1: A freshly constructed machine (with no overrides) is in state
`Editing.Pristine` and its context is exactly `{values: {}, errors: {}}`. -/
theorem C1_initial_configuration :
    machineInit none = ⟨FState.editing EditingSub.pristine, ⟨[], []⟩⟩ := rfl

/-- C2: From any `Editing` substate and any context, `CHANGE{key, value}`
yields a context whose `values` is the old map with `key` bound to
`value` and every other key unchanged, leaves `errors` unchanged, and
leaves the state — including the `Editing` substate — unchanged. -/
theorem C2_change_updates_values (ctx : Context) (sub : EditingSub)
    (k v : String) :
    step ⟨FState.editing sub, ctx⟩ (Event.change k v)
        = ⟨FState.editing sub, ⟨ctx.values.set k v, ctx.errors⟩⟩
      ∧ (ctx.values.set k v).get k = some v
      ∧ ∀ k1, k1 ≠ k → (ctx.values.set k v).get k1 = ctx.values.get k1 :=
  ⟨rfl, StrMap.get_set_same _ _ _, fun _ h => StrMap.get_set_other _ _ _ _ h⟩

theorem C2_change_updates_values_witness :
    step ⟨FState.editing EditingSub.pristine, ⟨[], []⟩⟩
        (Event.change "name" "Jim")
        = ⟨FState.editing EditingSub.pristine, ⟨[("name", "Jim")], []⟩⟩
      ∧ (StrMap.set [] "name" "Jim").get "reams" = StrMap.get [] "reams" :=
  ⟨(C2_change_updates_values ⟨[], []⟩ EditingSub.pristine "name" "Jim").1,
    (C2_change_updates_values ⟨[], []⟩ EditingSub.pristine "name" "Jim").2.2
      "reams" (by decide)⟩

/-- C3: From `Submitting` with any context, the service's rejection with
payload `E` moves the machine to `Editing.Error` with `errors` set to
exactly `E` (full replacement) and `values` unchanged. -/
theorem C3_rejection_replaces_errors (ctx : Context) (E : StrMap) :
    step ⟨FState.submitting, ctx⟩ (Event.errorPlatform E)
      = ⟨FState.editing EditingSub.error, ⟨ctx.values, E⟩⟩ := rfl

/-- C4: From any `Editing` substate, `SUBMIT` moves the machine to
`Submitting` without changing the context, and a successful resolution
of the service then moves it to `Success` with the resolved payload not
stored in the context (the result does not depend on `d`). -/
theorem C4_submit_success_path (ctx : Context) (sub : EditingSub)
    (d : StrMap) :
    step ⟨FState.editing sub, ctx⟩ Event.submit = ⟨FState.submitting, ctx⟩
      ∧ step ⟨FState.submitting, ctx⟩ (Event.doneInvoke d)
          = ⟨FState.success, ctx⟩ :=
  ⟨rfl, rfl⟩

/-- C5: From `Success` with any context, `AGAIN` moves the machine to
`Editing.Pristine` and resets the context to `{values: {}, errors: {}}`
(the `clearForm` entry action of `pristine` fires on re-entry). -/
theorem C5_again_resets (ctx : Context) :
    step ⟨FState.success, ctx⟩ Event.again
      = ⟨FState.editing EditingSub.pristine, ⟨[], []⟩⟩ := rfl

/-- C6: While the machine is in `Submitting` or `Success`, `CHANGE` and
`SUBMIT` change neither the state nor the context. -/
theorem C6_busy_ignores_change_submit (s : MState)
    (h : s.state = FState.submitting ∨ s.state = FState.success)
    (k v : String) :
    step s (Event.change k v) = s ∧ step s Event.submit = s := by
  obtain ⟨st, ctx⟩ := s
  cases st with
  | editing sub => rcases h with h | h <;> exact absurd h (by simp)
  | submitting => exact ⟨rfl, rfl⟩
  | success => exact ⟨rfl, rfl⟩

theorem C6_busy_ignores_change_submit_witness :
    step ⟨FState.submitting, ⟨[("name", "Jim")], []⟩⟩
          (Event.change "name" "X")
        = ⟨FState.submitting, ⟨[("name", "Jim")], []⟩⟩
      ∧ step ⟨FState.submitting, ⟨[("name", "Jim")], []⟩⟩ Event.submit
        = ⟨FState.submitting, ⟨[("name", "Jim")], []⟩⟩ :=
  C6_busy_ignores_change_submit ⟨FState.submitting, ⟨[("name", "Jim")], []⟩⟩
    (Or.inl rfl) "name" "X"

/-- The reachable configuration behind the analysis of C7: submit the
fresh form, let the service reject with a non-empty payload, then
resubmit from `Editing.Error`. -/
def staleSubmitting : MState :=
  step
    (step (step (machineInit none) Event.submit)
      (Event.errorPlatform [("reams", "Not enough reams!")]))
    Event.submit

theorem staleSubmitting_reachable : Reachable staleSubmitting :=
  Reachable.next _ _ (Reachable.next _ _ (Reachable.next _ _ Reachable.init))

/-- C7: counterexample — `staleSubmitting` is reachable, sits in
`Submitting`, and carries a non-empty `errors` map, so `errors` is not
non-empty only in `Editing.Error`. -/
theorem C7_counterexample :
    Reachable staleSubmitting
      ∧ staleSubmitting.context.errors ≠ []
      ∧ staleSubmitting.state ≠ FState.editing EditingSub.error :=
  ⟨staleSubmitting_reachable, by decide, by decide⟩

theorem pristine_errors_empty (s : MState) (h : Reachable s) :
    s.state = FState.editing EditingSub.pristine → s.context.errors = [] := by
  induction h with
  | init => intro _; rfl
  | next s e _ ih =>
      intro hst
      obtain ⟨st, ctx⟩ := s
      cases st with
      | editing sub =>
          cases e with
          | change k v =>
              simp only [step] at hst ⊢
              cases sub with
              | pristine => exact ih rfl
              | error => exact absurd hst (by simp)
          | submit => exact absurd hst (by simp [step])
          | again => exact ih hst
          | doneInvoke d => exact ih hst
          | errorPlatform d => exact ih hst
          | unknown t => exact ih hst
      | submitting =>
          cases e with
          | change k v => exact ih hst
          | submit => exact ih hst
          | again => exact ih hst
          | doneInvoke d => exact absurd hst (by simp [step])
          | errorPlatform d => exact absurd hst (by simp [step])
          | unknown t => exact ih hst
      | success =>
          cases e with
          | change k v => exact ih hst
          | submit => exact ih hst
          | again => rfl
          | doneInvoke d => exact ih hst
          | errorPlatform d => exact ih hst
          | unknown t => exact ih hst

/-- C7 (amended): in every reachable configuration, `errors` is
non-empty only when the state is `Editing.Error`, `Submitting` or
`Success` — equivalently, never in `Editing.Pristine` (stale errors do
persist through `SUBMIT` from `Editing.Error` into `Submitting` and
`Success`). -/
theorem C7_errors_not_pristine (s : MState) (h : Reachable s)
    (hne : s.context.errors ≠ []) :
    s.state ≠ FState.editing EditingSub.pristine :=
  fun hp => hne (pristine_errors_empty s h hp)

theorem C7_errors_not_pristine_witness :
    staleSubmitting.state ≠ FState.editing EditingSub.pristine :=
  C7_errors_not_pristine staleSubmitting staleSubmitting_reachable (by decide)

/-- C8: dispatching an event whose type the current state has no handler
for leaves the configuration unchanged — the very same value, which in
this pure embedding is the strongest possible reading of "the same
value, not merely an equal copy". -/
theorem C8_unrecognized_noop (s : MState) (e : Event)
    (h : recognizes s.state e = false) : step s e = s := by
  obtain ⟨st, ctx⟩ := s
  cases st <;> cases e <;> first
    | rfl
    | exact absurd h (by simp [recognizes])

theorem C8_unrecognized_noop_witness :
    step ⟨FState.success, ⟨[], [("x", "y")]⟩⟩ (Event.change "a" "b")
      = ⟨FState.success, ⟨[], [("x", "y")]⟩⟩ :=
  C8_unrecognized_noop ⟨FState.success, ⟨[], [("x", "y")]⟩⟩
    (Event.change "a" "b") rfl

/-- C9: counterexample — a machine constructed with the non-empty
`initialContext` override `{values: {name: "Jim"}, errors: {}}` does not
initially report that context: the `clearForm` entry action of
`pristine` runs when the initial state is entered and wipes it. -/
theorem C9_counterexample :
    (machineInit (some ⟨[("name", "Jim")], []⟩)).context
      ≠ (⟨[("name", "Jim")], []⟩ : Context) := by
  decide

/-- C9 (amended): machine construction accepts an optional
`initialContext` override, but the initially reported configuration is
`Editing.Pristine` with context `{values: {}, errors: {}}` regardless of
the override, because `pristine`'s entry action `clearForm` is applied
when the initial state is entered. -/
theorem C9_initial_override_cleared (c : Context) :
    machineInit (some c)
      = ⟨FState.editing EditingSub.pristine, ⟨[], []⟩⟩ := rfl

/-- C10: `SUBMIT` from `Editing.Error` moves the machine to `Submitting`
with `errors` unchanged, and if the service then resolves successfully
the stale `errors` map persists into `Success`: nothing clears it on
this path. -/
theorem C10_stale_errors_persist (ctx : Context) (d : StrMap) :
    (step ⟨FState.editing EditingSub.error, ctx⟩ Event.submit).state
          = FState.submitting
      ∧ (step ⟨FState.editing EditingSub.error, ctx⟩ Event.submit).context
          = ctx
      ∧ (step ⟨FState.submitting, ctx⟩ (Event.doneInvoke d)).state
          = FState.success
      ∧ (step ⟨FState.submitting, ctx⟩ (Event.doneInvoke d)).context.errors
          = ctx.errors :=
  ⟨rfl, rfl, rfl, rfl⟩
